import Mathlib

/-!
Shallow embedding of the SHACL-API service core (`src/app.py`): the forms
schema compiler (`get_forms`), the verb resolution engine (`lookup_verb`) and
the validation orchestrator (`validate_graph`), over an explicit triple-store
model.  RDF terms are modelled as tagged strings; graphs as insertion-ordered
lists of triples (the rdflib in-memory store iterates triples in insertion
order).  Python string functions are modelled at ASCII level, which covers the
namespace IRIs and verb strings this service manipulates.
-/

namespace RolesApi

/-- An RDF term: an IRI or a literal, each carrying its string form
(`str(term)` in Python returns exactly this string). -/
inductive Term where
  | iri : String → Term
  | lit : String → Term
deriving DecidableEq, Repr

/-- The string form of a term, as produced by Python `str(...)`. -/
def termStr : Term → String
  | .iri s => s
  | .lit s => s

/-- A triple (subject, predicate, object). -/
abbrev Triple := Term × Term × Term

/-- A graph: insertion-ordered collection of triples. -/
abbrev Graph := List Triple

/-- `graph.subjects(p, o)` — subjects of all triples matching `(?, p, o)`,
in store order. -/
def subjects (g : Graph) (p o : Term) : List Term :=
  (g.filter (fun t => t.2.1 == p && t.2.2 == o)).map (fun t => t.1)

/-- `graph.objects(s, p)` — objects of all triples matching `(s, p, ?)`,
in store order. -/
def objects (g : Graph) (s p : Term) : List Term :=
  (g.filter (fun t => t.1 == s && t.2.1 == p)).map (fun t => t.2.2)

/-- `graph.value(s, p)` — the first object of `(s, p, ?)`, or `None`. -/
def value (g : Graph) (s p : Term) : Option Term :=
  (objects g s p).head?

/-- The SHACL namespace `SH` from `app.py`. -/
def SH (s : String) : Term := .iri ("http://www.w3.org/ns/shacl#" ++ s)

/-- The ontology namespace `ONT` from `app.py`. -/
def ONT (s : String) : Term := .iri ("http://example.org/ontology/" ++ s)

/-- `RDF.type`. -/
def RDF_type : Term := .iri "http://www.w3.org/1999/02/22-rdf-syntax-ns#type"

/-- Python truthiness of an optional term (`if not x` on `None` or an
rdflib term, which is a `str` subclass: falsy iff absent or empty). -/
def optTruthy : Option Term → Bool
  | none => false
  | some t => termStr t != ""

/-- `s.split("/")[-1]`: the last slash-delimited segment of a string. -/
def lastSegAux : List Char → List Char → List Char
  | [], acc => acc.reverse
  | '/' :: rest, _ => lastSegAux rest []
  | c :: rest, acc => lastSegAux rest (c :: acc)

/-- `str(x).split("/")[-1]` — the "short name" rule. -/
def lastSeg (s : String) : String := ⟨lastSegAux s.data []⟩

/-! Python `int(...)` applied to the string form of an rdflib term:
strip whitespace, optional sign, decimal digits with single underscores
allowed between digits.  Returns `none` where Python raises `ValueError`. -/

/-- Value of a decimal digit character, if it is one. -/
def digitVal (c : Char) : Option Nat :=
  if '0' ≤ c ∧ c ≤ '9' then some (c.toNat - 48) else none

/-- Python whitespace characters stripped by `str.strip()` (ASCII range). -/
def pySpace (c : Char) : Bool :=
  c == ' ' || c == '\t' || c == '\n' || c == '\r' || c == '\x0b' || c == '\x0c'

/-- Digit run after the first digit: underscores allowed only between digits. -/
def pyIntCore : Nat → List Char → Option Nat
  | acc, [] => some acc
  | acc, '_' :: c :: rest =>
      match digitVal c with
      | some d => pyIntCore (acc * 10 + d) rest
      | none => none
  | _, ['_'] => none
  | acc, c :: rest =>
      match digitVal c with
      | some d => pyIntCore (acc * 10 + d) rest
      | none => none

/-- Parse an unsigned digit string (must start with a digit). -/
def pyIntAbs : List Char → Option Nat
  | [] => none
  | c :: rest =>
      match digitVal c with
      | some d => pyIntCore d rest
      | none => none

/-- Strip Python whitespace from both ends of a character list. -/
def pyStripChars (cs : List Char) : List Char :=
  ((cs.dropWhile pySpace).reverse.dropWhile pySpace).reverse

/-- Python `int(s)` for a string `s`, `none` where Python raises. -/
def pyInt (s : String) : Option Int :=
  match pyStripChars s.data with
  | '+' :: rest => (pyIntAbs rest).map Int.ofNat
  | '-' :: rest => (pyIntAbs rest).map (fun n => -(n : Int))
  | cs => (pyIntAbs cs).map Int.ofNat

/-! ### The forms endpoint (`get_forms`) -/

/-- A JSON scalar value appearing in a field descriptor. -/
inductive JVal where
  | s : String → JVal
  | b : Bool → JVal
deriving DecidableEq, Repr

/-- A field descriptor: the ordered-key dict built at `app.py` lines 62-66. -/
abbrev FieldDict := List (String × JVal)

/-- The dict literal `{"path": ..., "name": ..., "required": ...}`. -/
def mkFieldDict (path name : String) (required : Bool) : FieldDict :=
  [("path", JVal.s path), ("name", JVal.s name), ("required", JVal.b required)]

/-- Value of key `k` in a field descriptor. -/
def dictGet (d : FieldDict) (k : String) : Option JVal :=
  (d.find? (fun kv => kv.1 == k)).map (fun kv => kv.2)

/-- Processing of one `sh:property` object of a shape (`app.py` 57-66):
reads `path`, `name`, `minCount`; drops the field if `path` or `name` is
falsy; otherwise `required = (min_count is not None and int(min_count) > 0)`,
where `int(...)` raises (`.error ()`) on a non-numeric value. -/
def fieldOf (g : Graph) (prop : Term) : Except Unit (Option FieldDict) :=
  let path := value g prop (SH "path")
  let name := value g prop (SH "name")
  let min_count := value g prop (SH "minCount")
  match path, name with
  | some pt, some nt =>
      if termStr pt != "" && termStr nt != "" then
        match min_count with
        | none => .ok (some (mkFieldDict (termStr pt) (termStr nt) false))
        | some mc =>
            match pyInt (termStr mc) with
            | none => .error ()
            | some n => .ok (some (mkFieldDict (termStr pt) (termStr nt) (decide (0 < n))))
      else .ok none
  | _, _ => .ok none

/-- The field list of a shape: each property constraint in store order,
dropped when `path`/`name` is missing. -/
def fieldsOf (g : Graph) : List Term → Except Unit (List FieldDict)
  | [] => .ok []
  | p :: rest =>
      match fieldOf g p with
      | .error e => .error e
      | .ok none => fieldsOf g rest
      | .ok (some f) =>
          match fieldsOf g rest with
          | .error e => .error e
          | .ok fs => .ok (f :: fs)

/-- The forms mapping under construction: a Python dict in insertion order. -/
abbrev FormsMap := List (String × List FieldDict)

/-- `forms[shape_name] = fields` on a Python dict: overwrite in place if the
key exists (keeping its position), else append. -/
def insertLWW (m : FormsMap) (k : String) (v : List FieldDict) : FormsMap :=
  if m.any (fun kv => kv.1 == k) then
    m.map (fun kv => if kv.1 == k then (k, v) else kv)
  else m ++ [(k, v)]

/-- Value of key `k` in the forms mapping. -/
def formsGet (m : FormsMap) (k : String) : Option (List FieldDict) :=
  (m.find? (fun kv => kv.1 == k)).map (fun kv => kv.2)

/-- One iteration of the shape loop (`app.py` 48-67): skip the shape when
`targetClass` is falsy, else store its fields under the short name of the
target class. -/
def shapeStep (g : Graph) (forms : FormsMap) (shape : Term) :
    Except Unit FormsMap :=
  match value g shape (SH "targetClass") with
  | none => .ok forms
  | some tc =>
      if termStr tc == "" then .ok forms
      else
        match fieldsOf g (objects g shape (SH "property")) with
        | .error e => .error e
        | .ok fields => .ok (insertLWW forms (lastSeg (termStr tc)) fields)

/-- The shape loop over a list of shapes, threading the forms dict. -/
def processShapes (g : Graph) : List Term → FormsMap → Except Unit FormsMap
  | [], forms => .ok forms
  | shape :: rest, forms =>
      match shapeStep g forms shape with
      | .error e => .error e
      | .ok forms' => processShapes g rest forms'

/-- `GET /api/forms` (`app.py` 42-68): the `forms` dict (the handler wraps it
as `{"forms": forms}`).  `.error ()` models an unhandled `ValueError` from
`int(min_count)`. -/
def get_forms (g : Graph) : Except Unit FormsMap :=
  processShapes g (subjects g RDF_type (SH "NodeShape")) []

/-! ### The lookup endpoint (`lookup_verb`) -/

/-- The uppercase-to-lowercase table of the ASCII range. -/
def lowerTable : List (Char × Char) :=
  [ ('A', 'a'), ('B', 'b'), ('C', 'c'), ('D', 'd'), ('E', 'e'),
    ('F', 'f'), ('G', 'g'), ('H', 'h'), ('I', 'i'), ('J', 'j'),
    ('K', 'k'), ('L', 'l'), ('M', 'm'), ('N', 'n'), ('O', 'o'),
    ('P', 'p'), ('Q', 'q'), ('R', 'r'), ('S', 's'), ('T', 't'),
    ('U', 'u'), ('V', 'v'), ('W', 'w'), ('X', 'x'), ('Y', 'y'),
    ('Z', 'z') ]

/-- ASCII lowercasing of one character (Python `str.lower()` restricted to
the ASCII range this service's verb strings use). -/
def pyLower (c : Char) : Char :=
  ((lowerTable.find? (fun kv => kv.1 == c)).map (fun kv => kv.2)).getD c

/-- `.replace(" ", "_")` for a single character. -/
def underscoreSpace (c : Char) : Char := if c = ' ' then '_' else c

/-- `verb.lower().strip().replace(" ", "_")` at character level
(`app.py` line 75). -/
def canonChars (cs : List Char) : List Char :=
  (pyStripChars (cs.map pyLower)).map underscoreSpace

/-- `verb_clean = verb.lower().strip().replace(" ", "_")`. -/
def verb_clean (verb : String) : String := ⟨canonChars verb.data⟩

/-- `verb_uri = ONT[verb_clean]`. -/
def verb_uri (verb : String) : Term := ONT (verb_clean verb)

/-- One element of the lookup response's `mappings` list. -/
structure VerbMapping where
  situation : String
  fallback_domain : Option String
  vn_class : String
deriving DecidableEq, Repr

/-- The three response shapes of `GET /api/lookup`. -/
inductive LookupResult where
  | notFound (message : String)
  | foundEmpty (verb : String) (message : String)
  | found (verb : String) (mappings : List VerbMapping)
deriving DecidableEq, Repr

/-- The body of the situation loop (`app.py` 89-104): the verb-level
`semantic_domain` (short name, or `None` if falsy/absent) and `vn_class`
(short name, or `"Unknown"` if falsy/absent) are re-read per situation but
depend only on the verb IRI. -/
def mappingOf (g : Graph) (uri : Term) (sit : Term) : VerbMapping :=
  let domain := value g uri (ONT "semantic_domain")
  let domain_name : Option String :=
    match domain with
    | some d => if termStr d != "" then some (lastSeg (termStr d)) else none
    | none => none
  let vn := value g uri (ONT "vn_class")
  let vn_name : String :=
    match vn with
    | some v => if termStr v != "" then lastSeg (termStr v) else "Unknown"
    | none => "Unknown"
  { situation := lastSeg (termStr sit)
    fallback_domain := domain_name
    vn_class := vn_name }

/-- `GET /api/lookup?verb=...` (`app.py` 70-110). -/
def lookup_verb (g : Graph) (verb : String) : LookupResult :=
  let uri := verb_uri verb
  let situations := objects g uri (ONT "evokes")
  match situations with
  | [] =>
      if (uri, RDF_type, ONT "Verb") ∈ g then
        .foundEmpty verb "Verb exists but no situations mapped."
      else
        .notFound ("Verb '" ++ verb ++ "' not found in ontology.")
  | _ :: _ => .found verb (situations.map (mappingOf g uri))

/-- The `verb` field echoed in a lookup response, when present. -/
def resultVerb : LookupResult → Option String
  | .notFound _ => none
  | .foundEmpty v _ => some v
  | .found v _ => some v

/-- The `mappings` field of a lookup response, when present. -/
def resultMappings : LookupResult → Option (List VerbMapping)
  | .notFound _ => none
  | .foundEmpty _ _ => some []
  | .found _ ms => some ms

/-! ### The validate endpoint (`validate_graph`) -/

/-- The argument record of one call to `pyshacl.validate`
(`app.py` 122-130). -/
structure EngineArgs where
  data_graph : Graph
  shacl_graph : Graph
  ont_graph : Graph
  inference : String
  abort_on_first : Bool
  meta_shacl : Bool
  debug : Bool
deriving DecidableEq, Repr

/-- What `pyshacl.validate` returns: `(conforms, report_graph, report_text)`. -/
structure EngineResult where
  conforms : Bool
  report_graph : Graph
  report_text : String

/-- The two JSON bodies `validate_graph` can return: the parse-failure dict
`{"conforms": ..., "detail": ...}` and the success dict
`{"conforms": ..., "report_text": ...}`. -/
inductive ValidateResponse where
  | withDetail (conforms : Bool) (detail : String)
  | withReport (conforms : Bool) (report_text : String)
deriving DecidableEq, Repr

/-- Outcome of a FastAPI handler: a normal-status JSON response, or a raised
`HTTPException` with an error status code. -/
inductive HttpOutcome where
  | response (body : ValidateResponse)
  | httpError (status : Nat) (detail : String)
deriving DecidableEq, Repr

/-- `POST /api/validate` (`app.py` 112-135).  The turtle parser and the shape
validation engine are external collaborators, passed as functions; the second
component records the engine invocations made during the call. -/
def validate_graph (unified : Graph) (parseTurtle : String → Except String Graph)
    (engine : EngineArgs → EngineResult) (turtle_data : String) :
    HttpOutcome × List EngineArgs :=
  match parseTurtle turtle_data with
  | .error e => (.response (.withDetail false e), [])
  | .ok data_graph =>
      let args : EngineArgs :=
        { data_graph := data_graph
          shacl_graph := unified
          ont_graph := unified
          inference := "rdfs"
          abort_on_first := false
          meta_shacl := false
          debug := false }
      let r := engine args
      (.response (.withReport r.conforms r.report_text), [args])

/-! ### Concrete graphs used to instantiate the theorems -/

/-- Number of entries of the forms mapping whose key is `k`. -/
def countKey (m : FormsMap) (k : String) : Nat :=
  (m.filter (fun kv => kv.1 == k)).length

/-- The example graph of the spec's Possession form: one NodeShape targeting
`.../Possession` with a required `possessor` (`minCount=1`) and an optional
`possessed` (no `minCount`). -/
def possG : Graph :=
  [ (.iri "http://example.org/shapes/PossessionShape", RDF_type, SH "NodeShape"),
    (.iri "http://example.org/shapes/PossessionShape", SH "targetClass", ONT "Possession"),
    (.iri "http://example.org/shapes/PossessionShape", SH "property", .iri "http://example.org/shapes/p1"),
    (.iri "http://example.org/shapes/p1", SH "path", ONT "possessor"),
    (.iri "http://example.org/shapes/p1", SH "name", .lit "possessor"),
    (.iri "http://example.org/shapes/p1", SH "minCount", .lit "1"),
    (.iri "http://example.org/shapes/PossessionShape", SH "property", .iri "http://example.org/shapes/p2"),
    (.iri "http://example.org/shapes/p2", SH "path", ONT "possessed"),
    (.iri "http://example.org/shapes/p2", SH "name", .lit "possessed") ]

/-- The form schema `get_forms` actually derives from `possG`. -/
def possForms : FormsMap :=
  [("Possession",
    [ mkFieldDict "http://example.org/ontology/possessor" "possessor" true,
      mkFieldDict "http://example.org/ontology/possessed" "possessed" false ])]

/-- A graph whose single property constraint carries a non-numeric
`minCount` literal. -/
def badMinCountG : Graph :=
  [ (.iri "http://example.org/shapes/S", RDF_type, SH "NodeShape"),
    (.iri "http://example.org/shapes/S", SH "targetClass", ONT "Thing"),
    (.iri "http://example.org/shapes/S", SH "property", .iri "http://example.org/shapes/q"),
    (.iri "http://example.org/shapes/q", SH "path", ONT "p"),
    (.iri "http://example.org/shapes/q", SH "name", .lit "p"),
    (.iri "http://example.org/shapes/q", SH "minCount", .lit "abc") ]

/-- A small ontology for an `eat` verb with two evoked situations. -/
def eatG : Graph :=
  [ (ONT "eat", RDF_type, ONT "Verb"),
    (ONT "eat", ONT "evokes", ONT "Ingestion"),
    (ONT "eat", ONT "evokes", ONT "Consumption"),
    (ONT "eat", ONT "semantic_domain", ONT "Food"),
    (ONT "eat", ONT "vn_class", .lit "eat-39.1") ]

/-- A graph declaring `sleep` as a Verb with no `evokes` facts. -/
def sleepG : Graph := [(ONT "sleep", RDF_type, ONT "Verb")]

/-- A turtle parser stub that always fails, standing in for the external
parser on a malformed document. -/
def alwaysFail (s : String) : Except String Graph := .error ("bad syntax at " ++ s)

/-- A turtle parser stub that always yields the empty graph. -/
def alwaysEmpty (_ : String) : Except String Graph := .ok []

/-- An engine stub with a fixed verdict. -/
def engineStub (_ : EngineArgs) : EngineResult :=
  { conforms := true, report_graph := [], report_text := "Validation Report" }

/-! ### Helper lemmas on the forms dict -/

theorem formsGet_cons_pos (kv : String × List FieldDict) (t : FormsMap)
    (k : String) (h : (kv.1 == k) = true) :
    formsGet (kv :: t) k = some kv.2 := by
  unfold formsGet
  rw [show List.find? (fun kv => kv.1 == k) (kv :: t) = some kv from
    List.find?_cons_of_pos t h]
  rfl

theorem formsGet_cons_neg (kv : String × List FieldDict) (t : FormsMap)
    (k : String) (h : (kv.1 == k) = false) :
    formsGet (kv :: t) k = formsGet t k := by
  unfold formsGet
  rw [show List.find? (fun kv => kv.1 == k) (kv :: t) =
      List.find? (fun kv => kv.1 == k) t from
    List.find?_cons_of_neg t (by simp [h])]

theorem formsGet_map_overwrite (m : FormsMap) (k : String) (v : List FieldDict)
    (h : m.any (fun kv => kv.1 == k) = true) :
    formsGet (m.map (fun kv => if kv.1 == k then (k, v) else kv)) k = some v := by
  induction m with
  | nil => simp at h
  | cons kv t ih =>
      rw [List.map_cons]
      by_cases hkv : (kv.1 == k) = true
      · rw [if_pos hkv, formsGet_cons_pos (k, v) _ k (by simp)]
      · have hb : (kv.1 == k) = false := by simpa using hkv
        have ht : t.any (fun kv => kv.1 == k) = true := by
          simpa [List.any_cons, hb] using h
        rw [if_neg hkv, formsGet_cons_neg kv _ k hb]
        exact ih ht

theorem formsGet_append_new (m : FormsMap) (k : String) (v : List FieldDict)
    (h : m.any (fun kv => kv.1 == k) = false) :
    formsGet (m ++ [(k, v)]) k = some v := by
  induction m with
  | nil => simp [formsGet]
  | cons kv t ih =>
      have hb : (kv.1 == k) = false := by
        have h' := List.any_eq_false.1 h kv (by simp)
        simpa using h'
      have ht : t.any (fun kv => kv.1 == k) = false := by
        refine List.any_eq_false.2 fun x hx => ?_
        exact List.any_eq_false.1 h x (by simp [hx])
      rw [List.cons_append, formsGet_cons_neg kv _ k hb]
      exact ih ht

/-- On a Python dict, assignment overwrites: after `insertLWW m k v` the
entry for `k` is `v`. -/
theorem formsGet_insertLWW (m : FormsMap) (k : String) (v : List FieldDict) :
    formsGet (insertLWW m k v) k = some v := by
  unfold insertLWW
  cases h : m.any (fun kv => kv.1 == k)
  · simpa [h] using formsGet_append_new m k v h
  · simpa [h] using formsGet_map_overwrite m k v h

theorem length_filter_map_eq (f p : (String × List FieldDict) → _) (m : FormsMap)
    (h : ∀ x ∈ m, p (f x) = p x) :
    ((m.map f).filter p).length = (m.filter p).length := by
  induction m with
  | nil => rfl
  | cons a t ih =>
      have ha := h a (by simp)
      have iht := ih fun x hx => h x (by simp [hx])
      simp only [List.map_cons, List.filter_cons, ha]
      cases p a <;> simp [iht]

/-- `insertLWW` never introduces a duplicate key. -/
theorem countKey_insertLWW_le (m : FormsMap) (k k' : String) (v : List FieldDict)
    (h : countKey m k ≤ 1) : countKey (insertLWW m k' v) k ≤ 1 := by
  unfold insertLWW
  cases hany : m.any (fun kv => kv.1 == k')
  · simp only [hany, Bool.false_eq_true, if_false]
    unfold countKey at h ⊢
    rw [List.filter_append]
    by_cases hkk : k' = k
    · have hnil : m.filter (fun kv => kv.1 == k) = [] := by
        refine List.filter_eq_nil_iff.2 fun kv hkv => ?_
        have := List.any_eq_false.1 hany kv hkv
        simpa [hkk] using this
      simp [hnil, hkk]
    · have : ((k', v).1 == k) = false := by simpa using hkk
      simpa [this] using h
  · simp only [hany, if_true]
    unfold countKey at h ⊢
    rw [length_filter_map_eq]
    · exact h
    · intro kv _
      by_cases hkv : kv.1 = k'
      · simp [hkv]
      · simp [hkv]

/-- A successful `shapeStep` either keeps the forms dict or performs one
`insertLWW`. -/
theorem shapeStep_cases (g : Graph) (forms : FormsMap) (shape : Term)
    (f' : FormsMap) (h : shapeStep g forms shape = .ok f') :
    f' = forms ∨ ∃ k v, f' = insertLWW forms k v := by
  revert h
  unfold shapeStep
  split
  · intro h
    injection h with h'
    exact Or.inl h'.symm
  · split
    · intro h
      injection h with h'
      exact Or.inl h'.symm
    · cases hf : fieldsOf g (objects g shape (SH "property")) with
      | error e => intro h; cases h
      | ok fs =>
          intro h
          injection h with h'
          exact Or.inr ⟨_, _, h'.symm⟩

/-- The shape loop preserves key-uniqueness of the forms dict. -/
theorem processShapes_countKey (g : Graph) :
    ∀ (shapes : List Term) (forms res : FormsMap),
      processShapes g shapes forms = .ok res →
      (∀ k, countKey forms k ≤ 1) → ∀ k, countKey res k ≤ 1 := by
  intro shapes
  induction shapes with
  | nil =>
      intro forms res h hinv
      unfold processShapes at h
      injection h with h'
      rw [← h']
      exact hinv
  | cons s rest ih =>
      intro forms res h hinv
      unfold processShapes at h
      cases hs : shapeStep g forms s with
      | error e => rw [hs] at h; cases h
      | ok f' =>
          rw [hs] at h
          refine ih f' res h fun k => ?_
          rcases shapeStep_cases g forms s f' hs with h1 | ⟨k', v, h2⟩
          · rw [h1]; exact hinv k
          · rw [h2]; exact countKey_insertLWW_le forms k k' v (hinv k)

/-! ### Helper lemmas for canonicalization idempotence -/

theorem lowerTable_values_not_keys :
    ∀ kv ∈ lowerTable, lowerTable.find? (fun e => e.1 == kv.2) = none := by
  decide

theorem pyLower_idem (c : Char) : pyLower (pyLower c) = pyLower c := by
  unfold pyLower
  cases hfind : lowerTable.find? (fun kv => kv.1 == c) with
  | none => simp [hfind]
  | some kv =>
      have hmem : kv ∈ lowerTable := List.mem_of_find?_eq_some hfind
      simp only [Option.map_some', Option.getD_some]
      rw [lowerTable_values_not_keys kv hmem]
      rfl

theorem underscoreSpace_idem (c : Char) :
    underscoreSpace (underscoreSpace c) = underscoreSpace c := by
  unfold underscoreSpace
  by_cases h : c = ' ' <;> simp [h]

theorem pySpace_underscoreSpace (c : Char) (h : pySpace c = false) :
    pySpace (underscoreSpace c) = false := by
  unfold underscoreSpace
  by_cases hc : c = ' '
  · subst hc; simp [pySpace] at h
  · simpa [hc] using h

theorem pyLower_underscoreSpace_fix (c : Char) :
    pyLower (underscoreSpace (pyLower c)) = underscoreSpace (pyLower c) := by
  unfold underscoreSpace
  by_cases h : pyLower c = ' '
  · simp only [h, if_pos rfl]
    rfl
  · simp only [if_neg h]
    exact pyLower_idem c

theorem mem_of_mem_dropWhile {α : Type} (p : α → Bool) (l : List α) (a : α)
    (h : a ∈ l.dropWhile p) : a ∈ l := by
  induction l with
  | nil => simp at h
  | cons c t ih =>
      rw [List.dropWhile_cons] at h
      by_cases hp : p c = true
      · simp only [hp, if_true] at h
        exact List.mem_cons_of_mem c (ih h)
      · simp only [hp, if_false] at h
        exact h

theorem mem_of_mem_pyStripChars (l : List Char) (a : Char)
    (h : a ∈ pyStripChars l) : a ∈ l := by
  unfold pyStripChars at h
  rw [List.mem_reverse] at h
  have h1 := mem_of_mem_dropWhile pySpace (l.dropWhile pySpace).reverse a h
  rw [List.mem_reverse] at h1
  exact mem_of_mem_dropWhile pySpace l a h1

theorem map_fix_of_mem {α : Type} (f : α → α) (l : List α)
    (h : ∀ a ∈ l, f a = a) : l.map f = l := by
  induction l with
  | nil => rfl
  | cons c t ih =>
      rw [List.map_cons, h c (by simp), ih fun a ha => h a (by simp [ha])]

theorem dropWhile_map_dropWhile {α : Type} (p : α → Bool) (f : α → α)
    (l : List α) (hf : ∀ c, p c = false → p (f c) = false) :
    List.dropWhile p ((l.dropWhile p).map f) = (l.dropWhile p).map f := by
  induction l with
  | nil => rfl
  | cons c t ih =>
      rw [List.dropWhile_cons]
      by_cases hp : p c = true
      · simpa [hp] using ih
      · have hpc : p c = false := by simpa using hp
        simp only [hp, if_false, List.map_cons, List.dropWhile_cons,
          hf c hpc, Bool.false_eq_true, if_false]

theorem dropWhile_append_last {α : Type} (p : α → Bool) (c : α)
    (hc : p c = false) (l : List α) :
    ∃ l', List.dropWhile p (l ++ [c]) = l' ++ [c] := by
  induction l with
  | nil =>
      refine ⟨[], ?_⟩
      simp [List.dropWhile_cons, hc]
  | cons a t ih =>
      rw [List.cons_append, List.dropWhile_cons]
      by_cases hp : p a = true
      · simpa [hp] using ih
      · exact ⟨a :: t, by simp [hp]⟩

theorem dropWhile_head_cases {α : Type} (p : α → Bool) (l : List α) :
    l.dropWhile p = [] ∨
      ∃ c t, l.dropWhile p = c :: t ∧ p c = false := by
  induction l with
  | nil => exact Or.inl rfl
  | cons a t ih =>
      rw [List.dropWhile_cons]
      by_cases hp : p a = true
      · simpa [hp] using ih
      · exact Or.inr ⟨a, t, by simp [hp], by simpa using hp⟩

/-- A stripped character list is empty or starts with a non-space
character. -/
theorem pyStripChars_cons_shape (l : List Char) :
    pyStripChars l = [] ∨
      ∃ c t, pyStripChars l = c :: t ∧ pySpace c = false := by
  rcases dropWhile_head_cases pySpace l with hnil | ⟨c, t, hct, hc⟩
  · left
    unfold pyStripChars
    rw [hnil]
    rfl
  · right
    rcases dropWhile_append_last pySpace c hc t.reverse with ⟨l', hl'⟩
    refine ⟨c, l'.reverse, ?_, hc⟩
    unfold pyStripChars
    rw [hct, List.reverse_cons, hl', List.reverse_append]
    rfl

/-- The reverse of a stripped list is itself a `dropWhile` result. -/
theorem pyStripChars_reverse (l : List Char) :
    (pyStripChars l).reverse = (l.dropWhile pySpace).reverse.dropWhile pySpace := by
  unfold pyStripChars
  rw [List.reverse_reverse]

/-- The canonicalization of `app.py` line 75 is idempotent at character
level. -/
theorem canonChars_idem (cs : List Char) :
    canonChars (canonChars cs) = canonChars cs := by
  have hmem : ∀ a ∈ canonChars cs, ∃ c, a = underscoreSpace (pyLower c) := by
    intro a ha
    unfold canonChars at ha
    rcases List.mem_map.1 ha with ⟨b, hb, rfl⟩
    have hbm : b ∈ cs.map pyLower := mem_of_mem_pyStripChars _ b hb
    rcases List.mem_map.1 hbm with ⟨c, _, rfl⟩
    exact ⟨c, rfl⟩
  -- Step 1: lowercasing fixes the canonical form.
  have step1 : (canonChars cs).map pyLower = canonChars cs := by
    refine map_fix_of_mem pyLower _ fun a ha => ?_
    rcases hmem a ha with ⟨c, rfl⟩
    exact pyLower_underscoreSpace_fix c
  -- Step 2: stripping fixes the canonical form.
  have hfront : (canonChars cs).dropWhile pySpace = canonChars cs := by
    rcases pyStripChars_cons_shape (cs.map pyLower) with hnil | ⟨c, t, hct, hc⟩
    · unfold canonChars
      rw [hnil]
      rfl
    · unfold canonChars
      rw [hct, List.map_cons, List.dropWhile_cons]
      have hcf : pySpace (underscoreSpace c) = false := pySpace_underscoreSpace c hc
      simp [hcf]
  have hback :
      (canonChars cs).reverse.dropWhile pySpace = (canonChars cs).reverse := by
    have h1 : (canonChars cs).reverse =
        (((cs.map pyLower).dropWhile pySpace).reverse.dropWhile pySpace).map
          underscoreSpace := by
      show ((pyStripChars (cs.map pyLower)).map underscoreSpace).reverse = _
      rw [← List.map_reverse, pyStripChars_reverse]
    rw [h1]
    exact dropWhile_map_dropWhile pySpace underscoreSpace
      ((cs.map pyLower).dropWhile pySpace).reverse pySpace_underscoreSpace
  have step2 : pyStripChars (canonChars cs) = canonChars cs := by
    unfold pyStripChars
    rw [hfront, hback, List.reverse_reverse]
  -- Step 3: the space replacement fixes the canonical form.
  have step3 : (canonChars cs).map underscoreSpace = canonChars cs := by
    refine map_fix_of_mem underscoreSpace _ fun a ha => ?_
    rcases hmem a ha with ⟨c, rfl⟩
    exact underscoreSpace_idem (pyLower c)
  show (pyStripChars ((canonChars cs).map pyLower)).map underscoreSpace =
    canonChars cs
  rw [step1, step2, step3]

/-! ### Claim theorems -/

/-- C2: a NodeShape with a falsy `targetClass` contributes nothing; a
NodeShape with a truthy `targetClass` is stored under the last
slash-delimited segment of the class IRI; storing is a last-write-wins
overwrite (the later shape's field list replaces the earlier one), and the
final forms mapping holds at most one entry per key. -/
theorem C2_schema_keys_last_write_wins :
    (∀ (g : Graph) (forms : FormsMap) (shape : Term),
      optTruthy (value g shape (SH "targetClass")) = false →
      shapeStep g forms shape = .ok forms) ∧
    (∀ (g : Graph) (forms : FormsMap) (shape tc : Term) (fs : List FieldDict),
      value g shape (SH "targetClass") = some tc → termStr tc ≠ "" →
      fieldsOf g (objects g shape (SH "property")) = .ok fs →
      shapeStep g forms shape = .ok (insertLWW forms (lastSeg (termStr tc)) fs)) ∧
    (∀ (m : FormsMap) (k : String) (v : List FieldDict),
      formsGet (insertLWW m k v) k = some v) ∧
    (∀ (g : Graph) (res : FormsMap), get_forms g = .ok res →
      ∀ k, countKey res k ≤ 1) := by
  refine ⟨?_, ?_, ?_, ?_⟩
  · intro g forms shape h
    unfold shapeStep
    cases hv : value g shape (SH "targetClass") with
    | none => rfl
    | some tc =>
        rw [hv] at h
        have : (termStr tc == "") = true := by
          simp only [optTruthy, bne] at h
          simpa using h
        simp [this]
  · intro g forms shape tc fs hv htc hf
    unfold shapeStep
    rw [hv, hf]
    simp [htc]
  · exact formsGet_insertLWW
  · intro g res h k
    unfold get_forms at h
    exact processShapes_countKey g _ [] res h (fun k => by simp [countKey]) k

/-- C2 witness: a shape with no `targetClass` leaves the dict unchanged; the
Possession shape is stored under key `"Possession"`; a second write to an
existing key overwrites its value; and the Possession schema has exactly one
entry for its key. -/
theorem C2_schema_keys_last_write_wins_witness :
    shapeStep [] [] (ONT "x") = .ok [] ∧
    shapeStep possG [] (.iri "http://example.org/shapes/PossessionShape") =
      .ok possForms ∧
    formsGet (insertLWW [("Possession", [])] "Possession"
      [mkFieldDict "p" "n" true]) "Possession" = some [mkFieldDict "p" "n" true] ∧
    countKey possForms "Possession" ≤ 1 := by
  refine ⟨?_, ?_, ?_, ?_⟩
  · exact C2_schema_keys_last_write_wins.1 [] [] (ONT "x") (by decide)
  · exact C2_schema_keys_last_write_wins.2.1 possG []
      (.iri "http://example.org/shapes/PossessionShape") (ONT "Possession")
      [ mkFieldDict "http://example.org/ontology/possessor" "possessor" true,
        mkFieldDict "http://example.org/ontology/possessed" "possessed" false ]
      (by decide) (by decide) rfl
  · exact C2_schema_keys_last_write_wins.2.2.1 [("Possession", [])] "Possession"
      [mkFieldDict "p" "n" true]
  · exact C2_schema_keys_last_write_wins.2.2.2 possG possForms rfl "Possession"

/-- C3: for a verb whose canonical IRI evokes N ≥ 1 situations, the lookup
returns `found` with exactly N mappings, one per situation in query order
(the mapping's `situation` is the situation IRI's short name); with at most
one (nonempty) `semantic_domain` fact the `fallback_domain` of every mapping
is its short name (`none` when absent), with at most one (nonempty)
`vn_class` fact the `vn_class` of every mapping is its short name
(`"Unknown"` when absent); both fields are identical across all N
mappings. -/
theorem C3_mappings_per_situation (g : Graph) (verb : String)
    (s : Term) (rest : List Term)
    (hev : objects g (verb_uri verb) (ONT "evokes") = s :: rest) :
    ∃ ms, lookup_verb g verb = .found verb ms ∧
      ms.length = (s :: rest).length ∧
      ms.map (fun m => m.situation) =
        (s :: rest).map (fun t => lastSeg (termStr t)) ∧
      (objects g (verb_uri verb) (ONT "semantic_domain") = [] →
        ∀ m ∈ ms, m.fallback_domain = none) ∧
      (∀ d ds, objects g (verb_uri verb) (ONT "semantic_domain") = d :: ds →
        termStr d ≠ "" →
        ∀ m ∈ ms, m.fallback_domain = some (lastSeg (termStr d))) ∧
      (objects g (verb_uri verb) (ONT "vn_class") = [] →
        ∀ m ∈ ms, m.vn_class = "Unknown") ∧
      (∀ v vs, objects g (verb_uri verb) (ONT "vn_class") = v :: vs →
        termStr v ≠ "" → ∀ m ∈ ms, m.vn_class = lastSeg (termStr v)) ∧
      (∀ m ∈ ms, ∀ m' ∈ ms,
        m.fallback_domain = m'.fallback_domain ∧ m.vn_class = m'.vn_class) := by
  refine ⟨(s :: rest).map (mappingOf g (verb_uri verb)), ?_, ?_, ?_, ?_, ?_, ?_, ?_, ?_⟩
  · simp only [lookup_verb]
    rw [hev]
  · simp
  · simp [mappingOf]
  · intro hdom m hm
    rcases List.mem_map.1 hm with ⟨t, _, rfl⟩
    simp [mappingOf, value, hdom]
  · intro d ds hdom hd m hm
    rcases List.mem_map.1 hm with ⟨t, _, rfl⟩
    simp [mappingOf, value, hdom, hd]
  · intro hvn m hm
    rcases List.mem_map.1 hm with ⟨t, _, rfl⟩
    simp [mappingOf, value, hvn]
  · intro v vs hvn hv m hm
    rcases List.mem_map.1 hm with ⟨t, _, rfl⟩
    simp [mappingOf, value, hvn, hv]
  · intro m hm m' hm'
    rcases List.mem_map.1 hm with ⟨t, _, rfl⟩
    rcases List.mem_map.1 hm' with ⟨t', _, rfl⟩
    simp [mappingOf]

/-- C3 witness: on `eatG`, `eat` evokes two situations, and the lookup
returns two mappings sharing `fallback_domain = "Food"` and
`vn_class = "eat-39.1"`, with situations in query order. -/
theorem C3_mappings_per_situation_witness :
    ∃ ms, lookup_verb eatG "eat" = .found "eat" ms ∧
      ms.length = 2 ∧
      ms.map (fun m => m.situation) = ["Ingestion", "Consumption"] ∧
      (∀ m ∈ ms, m.fallback_domain = some "Food") ∧
      (∀ m ∈ ms, m.vn_class = "eat-39.1") := by
  have h := C3_mappings_per_situation eatG "eat"
    (ONT "Ingestion") [ONT "Consumption"] (by decide)
  rcases h with ⟨ms, hfound, hlen, hsit, _, hdom, _, hvn, _⟩
  refine ⟨ms, hfound, hlen, by simpa using hsit, ?_, ?_⟩
  · intro m hm
    simpa using hdom (ONT "Food") [] (by decide) (by decide) m hm
  · intro m hm
    simpa using hvn (.lit "eat-39.1") [] (by decide) (by decide) m hm

/-- C4: for a verb whose canonical IRI has zero `evokes` facts, `lookup_verb`
returns `found:true` with an empty mappings list and the explanatory message
when the graph holds a `Verb`-type fact for the IRI, and `found:false` with
the not-found message otherwise; the dichotomy on the type fact makes these
the only two outcomes. -/
theorem C4_zero_situations (g : Graph) (verb : String)
    (h : objects g (verb_uri verb) (ONT "evokes") = []) :
    ((verb_uri verb, RDF_type, ONT "Verb") ∈ g →
      lookup_verb g verb =
        .foundEmpty verb "Verb exists but no situations mapped.") ∧
    ((verb_uri verb, RDF_type, ONT "Verb") ∉ g →
      lookup_verb g verb =
        .notFound ("Verb '" ++ verb ++ "' not found in ontology.")) := by
  constructor <;> intro hm <;> simp [lookup_verb, h, hm]

/-- C4 witness: on `sleepG`, the verb `sleep` is declared but evokes nothing,
so the lookup reports `found:true` with empty mappings; on the empty graph it
reports not-found. -/
theorem C4_zero_situations_witness :
    lookup_verb sleepG "sleep" =
      .foundEmpty "sleep" "Verb exists but no situations mapped." ∧
    lookup_verb [] "sleep" =
      .notFound "Verb 'sleep' not found in ontology." := by
  constructor
  · exact (C4_zero_situations sleepG "sleep" (by decide)).1 (by decide)
  · exact (C4_zero_situations [] "sleep" (by decide)).2 (by decide)

/-- C5: verb canonicalization is idempotent — on an already-canonical string
it is the identity — and any two inputs with the same canonical form resolve
to the same verb IRI and produce identical mapping sets. -/
theorem C5_canonicalization_idempotent :
    (∀ s : String, verb_clean (verb_clean s) = verb_clean s) ∧
    (∀ (g : Graph) (v1 v2 : String), verb_clean v1 = verb_clean v2 →
      verb_uri v1 = verb_uri v2 ∧
      resultMappings (lookup_verb g v1) = resultMappings (lookup_verb g v2)) := by
  constructor
  · intro s
    show String.mk (canonChars (canonChars s.data)) = String.mk (canonChars s.data)
    rw [canonChars_idem]
  · intro g v1 v2 h
    have huri : verb_uri v1 = verb_uri v2 := by
      unfold verb_uri
      rw [h]
    refine ⟨huri, ?_⟩
    simp only [lookup_verb]
    rw [huri]
    cases hobj : objects g (verb_uri v2) (ONT "evokes") with
    | nil =>
        by_cases hmem : (verb_uri v2, RDF_type, ONT "Verb") ∈ g
        · simp [hmem, resultMappings]
        · simp [hmem, resultMappings]
    | cons a t => simp [resultMappings]

/-- C5 witness: canonicalizing a canonical form is the identity on a concrete
string, and `lookup(" EAT ")` and `lookup("eat")` yield identical mapping
sets on `eatG`. -/
theorem C5_canonicalization_idempotent_witness :
    verb_clean (verb_clean "  EAT Now ") = verb_clean "  EAT Now " ∧
    resultMappings (lookup_verb eatG " EAT ") =
      resultMappings (lookup_verb eatG "eat") := by
  refine ⟨C5_canonicalization_idempotent.1 "  EAT Now ", ?_⟩
  exact (C5_canonicalization_idempotent.2 eatG " EAT " "eat" (by decide)).2

/-- C6: when the turtle parser fails, `validate_graph` returns the structured
`{"conforms": false, "detail": <parser message>}` response, performs no
engine invocation (empty trace), and that response is a different constructor
from every successful-parse (`report_text`) response. -/
theorem C6_parse_failure_structured (unified : Graph)
    (pt : String → Except String Graph) (eng : EngineArgs → EngineResult)
    (s e : String) (h : pt s = .error e) :
    validate_graph unified pt eng s = (.response (.withDetail false e), []) ∧
    (∀ c r, ValidateResponse.withDetail false e ≠ ValidateResponse.withReport c r) := by
  refine ⟨?_, ?_⟩
  · simp [validate_graph, h]
  · intro c r hc
    cases hc

/-- C6 witness: a concrete failing parse yields the detail response and an
empty engine trace. -/
theorem C6_parse_failure_structured_witness :
    validate_graph [] alwaysFail engineStub "x" =
      (.response (.withDetail false "bad syntax at x"), []) ∧
    ValidateResponse.withDetail false "bad syntax at x" ≠
      ValidateResponse.withReport true "r" := by
  have h := C6_parse_failure_structured [] alwaysFail engineStub "x"
    "bad syntax at x" rfl
  exact ⟨h.1, h.2 true "r"⟩

/-- C8: on a successful parse, `validate_graph` invokes the engine exactly
once — with the transient data graph, the unified graph as both shapes and
ontology, `inference="rdfs"`, `abort_on_first=false`, `meta_shacl=false` —
and returns the engine's verdict and report text verbatim. -/
theorem C8_engine_invocation (unified : Graph)
    (pt : String → Except String Graph) (eng : EngineArgs → EngineResult)
    (s : String) (dg : Graph) (h : pt s = .ok dg) :
    validate_graph unified pt eng s =
      (.response (.withReport
          (eng ⟨dg, unified, unified, "rdfs", false, false, false⟩).conforms
          (eng ⟨dg, unified, unified, "rdfs", false, false, false⟩).report_text),
        [⟨dg, unified, unified, "rdfs", false, false, false⟩]) := by
  simp [validate_graph, h]

/-- C8 witness: a concrete successful parse produces exactly one engine call
with the fixed flags and echoes the stub verdict and report. -/
theorem C8_engine_invocation_witness :
    validate_graph possG alwaysEmpty engineStub "d" =
      (.response (.withReport true "Validation Report"),
        [⟨[], possG, possG, "rdfs", false, false, false⟩]) :=
  C8_engine_invocation possG alwaysEmpty engineStub "d" [] rfl

/-- C10: in every `found:true` lookup response — empty-mappings or
with-mappings — the `verb` field is the caller's input string exactly as
received, not the canonical form. -/
theorem C10_verb_echoed (g : Graph) (v : String) :
    (∀ m msg, lookup_verb g v = .foundEmpty m msg → m = v) ∧
    (∀ m ms, lookup_verb g v = .found m ms → m = v) := by
  constructor <;> intro m x h <;>
    revert h <;> simp only [lookup_verb] <;> split
  · split <;> intro h <;> cases h
    rfl
  · intro h
    cases h
  · split <;> intro h <;> cases h
  · intro h
    cases h
    rfl

/-- C10 witness: `lookup("EAT")` on a graph declaring only `ont:eat` echoes
`verb:"EAT"` even though resolution used the canonical IRI for `eat`. -/
theorem C10_verb_echoed_witness :
    lookup_verb [(ONT "eat", RDF_type, ONT "Verb")] "EAT" =
      .foundEmpty "EAT" "Verb exists but no situations mapped." ∧
    "EAT" = "EAT" := by
  refine ⟨by decide, ?_⟩
  exact (C10_verb_echoed [(ONT "eat", RDF_type, ONT "Verb")] "EAT").1
    "EAT" "Verb exists but no situations mapped." (by decide)

/-- C7 counterexample: on the Possession example graph, `get_forms` does not
return field descriptors made of exactly the keys `name` and `required` —
each descriptor also carries a leading `path` key, so the claimed schema
value is not the result. -/
theorem C7_counterexample :
    get_forms possG ≠
      Except.ok [("Possession",
        [ [("name", JVal.s "possessor"), ("required", JVal.b true)],
          [("name", JVal.s "possessed"), ("required", JVal.b false)] ])] ∧
    ((possForms.headD ("", [])).2.headD []).map (fun kv => kv.1) ≠
      ["name", "required"] := by
  constructor
  · intro h
    rw [show get_forms possG = Except.ok possForms from rfl] at h
    injection h with h'
    exact absurd h' (by decide)
  · decide

/-- C7 (amended): on the Possession example graph, `get_forms` returns
exactly `{"Possession": [...]}` with one descriptor per property constraint
in encounter order, but each descriptor consists of the keys `path`, `name`
and `required` (in that order), not just `name` and `required`. -/
theorem C7_possession_schema :
    get_forms possG = Except.ok possForms ∧
    possForms =
      [("Possession",
        [ [("path", JVal.s "http://example.org/ontology/possessor"),
           ("name", JVal.s "possessor"), ("required", JVal.b true)],
          [("path", JVal.s "http://example.org/ontology/possessed"),
           ("name", JVal.s "possessed"), ("required", JVal.b false)] ])] :=
  ⟨rfl, by decide⟩

/-- C1 counterexample: a property constraint whose `minCount` literal is the
non-numeric string `"abc"` does not yield `required = false` — `int(...)`
raises, so the forms operation fails instead of returning a schema. -/
theorem C1_counterexample : get_forms badMinCountG = Except.error () := rfl

/-- C1 (amended): for an emitted field (truthy `path` and `name`), `required`
is `true` iff `minCount` is present and parses to an integer strictly greater
than zero; an absent `minCount` and a zero or negative parse both yield
`false`; but a `minCount` whose string does not parse as a Python integer
makes the operation raise (an error), not return `required = false`. -/
theorem C1_required_flag (g : Graph) (prop : Term) (pt nt : Term)
    (hp : value g prop (SH "path") = some pt)
    (hn : value g prop (SH "name") = some nt)
    (hpt : termStr pt ≠ "") (hnt : termStr nt ≠ "") :
    (value g prop (SH "minCount") = none →
      fieldOf g prop = .ok (some (mkFieldDict (termStr pt) (termStr nt) false))) ∧
    (∀ mc n, value g prop (SH "minCount") = some mc →
      pyInt (termStr mc) = some n →
      fieldOf g prop =
        .ok (some (mkFieldDict (termStr pt) (termStr nt) (decide (0 < n))))) ∧
    (∀ mc, value g prop (SH "minCount") = some mc →
      pyInt (termStr mc) = none → fieldOf g prop = .error ()) := by
  refine ⟨?_, ?_, ?_⟩
  · intro hmc
    simp [fieldOf, hp, hn, hmc, hpt, hnt]
  · intro mc n hmc hparse
    simp [fieldOf, hp, hn, hmc, hpt, hnt, hparse]
  · intro mc hmc hparse
    simp [fieldOf, hp, hn, hmc, hpt, hnt, hparse]

/-- C1 witness: instantiations on the Possession and bad-minCount graphs —
the `minCount=1` constraint comes out required, the constraint without
`minCount` optional, and the `"abc"` constraint raises. -/
theorem C1_required_flag_witness :
    fieldOf possG (.iri "http://example.org/shapes/p1") =
      .ok (some (mkFieldDict "http://example.org/ontology/possessor" "possessor" true)) ∧
    fieldOf possG (.iri "http://example.org/shapes/p2") =
      .ok (some (mkFieldDict "http://example.org/ontology/possessed" "possessed" false)) ∧
    fieldOf badMinCountG (.iri "http://example.org/shapes/q") = .error () := by
  refine ⟨?_, ?_, ?_⟩
  · exact (C1_required_flag possG (.iri "http://example.org/shapes/p1")
      (ONT "possessor") (.lit "possessor") (by decide) (by decide)
      (by decide) (by decide)).2.1 (.lit "1") 1 (by decide) (by decide)
  · exact (C1_required_flag possG (.iri "http://example.org/shapes/p2")
      (ONT "possessed") (.lit "possessed") (by decide) (by decide)
      (by decide) (by decide)).1 (by decide)
  · exact (C1_required_flag badMinCountG (.iri "http://example.org/shapes/q")
      (ONT "p") (.lit "p") (by decide) (by decide)
      (by decide) (by decide)).2.2 (.lit "abc") (by decide) (by decide)

/-- C9 counterexample: on a failing parse the validate handler returns a
normal-status JSON response carrying the detail message — it does not raise
a 400-class `HTTPException` (the exception type is imported but never
raised). -/
theorem C9_counterexample :
    (validate_graph [] alwaysFail engineStub "x").1 =
      HttpOutcome.response (.withDetail false "bad syntax at x") := rfl

/-- C9 (amended): for every request body whose `turtle_data` fails to parse,
the validate endpoint responds with a normal-status structured response
`{"conforms": false, "detail": <message>}`; it never raises a 400-class
error. -/
theorem C9_parse_failure_status (unified : Graph)
    (pt : String → Except String Graph) (eng : EngineArgs → EngineResult)
    (s e : String) (h : pt s = .error e) :
    (validate_graph unified pt eng s).1 = .response (.withDetail false e) ∧
    (∀ st d, (validate_graph unified pt eng s).1 ≠ .httpError st d) := by
  refine ⟨?_, ?_⟩
  · simp [validate_graph, h]
  · intro st d hc
    simp [validate_graph, h] at hc

/-- C9 witness: a concrete failing parse produces the normal-status detail
response and in particular is not a 400 error. -/
theorem C9_parse_failure_status_witness :
    (validate_graph [] alwaysFail engineStub "y").1 =
      .response (.withDetail false "bad syntax at y") ∧
    (validate_graph [] alwaysFail engineStub "y").1 ≠ .httpError 400 "bad" := by
  have h := C9_parse_failure_status [] alwaysFail engineStub "y"
    "bad syntax at y" rfl
  exact ⟨h.1, h.2 400 "bad"⟩

end RolesApi
